import Mathlib

/-!
Verification development for the Personal-AI-Claudebot repository.

We shallowly embed the security-pipeline components the specification talks
about: the token-bucket rate limiter and its middleware
(`src/bot/middleware/rate-limit.middleware`), the timeout utility
(`src/utils/timeout.util.ts`), the tool-permission service with its
write-through cache (`tool-permission` service), the input validation and
sanitization service, and the monitoring alert cooldown
(`src/services/monitoring.service.ts`).

Machine numbers (JS `number`) are modelled as rationals `ℚ` where fractional
arithmetic matters (token counts, elapsed seconds) and as integers `ℤ`/`ℕ`
for millisecond timestamps where only integer values occur.  Fallible or
I/O-performing code is modelled by passing the outcome of the external call
(database query result, write error, operation settle time) as an explicit
parameter, and module-level mutable state (buckets, caches, regex
`lastIndex` registers, cooldown map) as explicit state threaded through the
functions.
-/

namespace ClaudeBot

/-! ## Association lists: the shallow model of JS `Map` -/

/-- Lookup of the first binding of a key, as JS `Map.get`. -/
def alookup {α β : Type} [DecidableEq α] : List (α × β) → α → Option β
  | [], _ => none
  | (k, v) :: rest, key => if k = key then some v else alookup rest key

/-- `Map.set`: update the first binding in place, else append. -/
def ainsert {α β : Type} [DecidableEq α] : List (α × β) → α → β → List (α × β)
  | [], key, v => [(key, v)]
  | (k, w) :: rest, key, v =>
    if k = key then (k, v) :: rest else (k, w) :: ainsert rest key v

/-- `Map.delete`: remove the bindings of a key. -/
def aerase {α β : Type} [DecidableEq α] : List (α × β) → α → List (α × β)
  | [], _ => []
  | (k, w) :: rest, key =>
    if k = key then aerase rest key else (k, w) :: aerase rest key

theorem alookup_ainsert_self {α β : Type} [DecidableEq α]
    (l : List (α × β)) (k : α) (v : β) : alookup (ainsert l k v) k = some v := by
  induction l with
  | nil => simp [ainsert, alookup]
  | cons p rest ih =>
    obtain ⟨k0, w⟩ := p
    by_cases h : k0 = k
    · simp [ainsert, alookup, h]
    · simp [ainsert, alookup, h, ih]

theorem alookup_ainsert_ne {α β : Type} [DecidableEq α]
    (l : List (α × β)) (k k' : α) (v : β) (h : k ≠ k') :
    alookup (ainsert l k v) k' = alookup l k' := by
  induction l with
  | nil => simp [ainsert, alookup, h]
  | cons p rest ih =>
    obtain ⟨k0, w⟩ := p
    by_cases h0 : k0 = k
    · subst h0
      simp [ainsert, alookup, h]
    · simp [ainsert, alookup, h0, ih]

theorem alookup_aerase_self {α β : Type} [DecidableEq α]
    (l : List (α × β)) (k : α) : alookup (aerase l k) k = none := by
  induction l with
  | nil => simp [aerase, alookup]
  | cons p rest ih =>
    obtain ⟨k0, w⟩ := p
    by_cases h : k0 = k
    · simp [aerase, h, ih]
    · simp [aerase, alookup, h, ih]

/-! ## The token bucket (`rate-limit.middleware`, class `TokenBucket`)

Timestamps are in milliseconds (JS `Date.now()`), token counts are
rationals.  `refill` adds `elapsedSeconds * refillRate` tokens capped at
`capacity`, where `elapsedSeconds = (now - lastRefill) / 1000`. -/

structure TokenBucket where
  capacity : ℚ
  refillRate : ℚ
  tokens : ℚ
  lastRefill : ℚ
  deriving DecidableEq, Repr

namespace TokenBucket

/-- `new TokenBucket(capacity, refillRate)` at wall-clock time `now`:
the bucket starts full and `lastRefill = Date.now()`. -/
def new (capacity refillRate now : ℚ) : TokenBucket :=
  { capacity := capacity, refillRate := refillRate, tokens := capacity, lastRefill := now }

/-- `refill()`: lazy refill based on elapsed wall-clock time. -/
def refill (b : TokenBucket) (now : ℚ) : TokenBucket :=
  let elapsedSeconds := (now - b.lastRefill) / 1000
  let tokensToAdd := elapsedSeconds * b.refillRate
  { b with tokens := min b.capacity (b.tokens + tokensToAdd), lastRefill := now }

/-- Result of `tryConsume()`. -/
structure ConsumeResult where
  allowed : Bool
  retryAfterSeconds : ℤ
  deriving DecidableEq, Repr

/-- `tryConsume()`: refill, then consume one token if at least one is
available; otherwise report `ceil((1 - tokens) / refillRate)` seconds to
wait. -/
def tryConsume (b : TokenBucket) (now : ℚ) : ConsumeResult × TokenBucket :=
  let b1 := b.refill now
  if 1 ≤ b1.tokens then
    ({ allowed := true, retryAfterSeconds := 0 }, { b1 with tokens := b1.tokens - 1 })
  else
    let tokensNeeded := 1 - b1.tokens
    let secondsUntilAvailable := ⌈tokensNeeded / b1.refillRate⌉
    ({ allowed := false, retryAfterSeconds := secondsUntilAvailable }, b1)

/-- `getTokens()`: refills, then reports the current token count. -/
def getTokens (b : TokenBucket) (now : ℚ) : ℚ × TokenBucket :=
  let b1 := b.refill now
  (b1.tokens, b1)

end TokenBucket

/-! ## Rate limiter configuration (`RATE_LIMITS`) -/

def RATE_LIMITS_USER_CAPACITY : ℚ := 30
def RATE_LIMITS_USER_REFILL_RATE : ℚ := 1 / 2
def RATE_LIMITS_GLOBAL_CAPACITY : ℚ := 100
def RATE_LIMITS_GLOBAL_REFILL_RATE : ℚ := 167 / 100

/-! ## The rate limiting middleware (`rateLimitMiddleware`)

The module state is the global bucket plus the per-user bucket map.  The
middleware outcome is either `blocked scope retryAfterSeconds` (the branch
that replies with the wait message and raises the audit event and the
`rate_limit_violations` counter) or `passed` (the branch that calls
`next()`). -/

inductive RLScope where
  | globalScope
  | userScope
  deriving DecidableEq, Repr

inductive RLOutcome where
  | blocked (scope : RLScope) (retryAfterSeconds : ℤ)
  | passed
  deriving DecidableEq, Repr

structure RLState where
  globalBucket : TokenBucket
  userBuckets : List (ℕ × TokenBucket)
  deriving DecidableEq, Repr

/-- `getUserBucket`: fetch the caller's bucket, creating a fresh full one
(`lastRefill = Date.now()`) on first use. -/
def getUserBucket (users : List (ℕ × TokenBucket)) (userId : ℕ) (now : ℚ) :
    TokenBucket × List (ℕ × TokenBucket) :=
  match alookup users userId with
  | some b => (b, users)
  | none =>
    let b := TokenBucket.new RATE_LIMITS_USER_CAPACITY RATE_LIMITS_USER_REFILL_RATE now
    (b, ainsert users userId b)

/-- `rateLimitMiddleware` for a message from `userId` at wall-clock `now`:
global bucket checked (and consumed from) first, then the per-user bucket;
on the passed branch the debug log reads both buckets via `getTokens`. -/
def rateLimitMiddleware (s : RLState) (userId : ℕ) (now : ℚ) : RLOutcome × RLState :=
  let g := s.globalBucket.tryConsume now
  if g.1.allowed = false then
    (.blocked .globalScope g.1.retryAfterSeconds, { s with globalBucket := g.2 })
  else
    let ub := getUserBucket s.userBuckets userId now
    let u := ub.1.tryConsume now
    let users2 := ainsert ub.2 userId u.2
    if u.1.allowed = false then
      (.blocked .userScope u.1.retryAfterSeconds,
        { globalBucket := g.2, userBuckets := users2 })
    else
      (.passed,
        { globalBucket := (g.2.getTokens now).2,
          userBuckets := ainsert ub.2 userId ((u.2.getTokens now).2) })

/-! ## Token bucket invariants -/

namespace TokenBucket

/-- One observed operation on a bucket: `true` is a `tryConsume`, `false` a
`getTokens` (both refill lazily), at the given wall-clock time. -/
def applyOp (b : TokenBucket) (op : Bool × ℚ) : TokenBucket :=
  if op.1 then (b.tryConsume op.2).2 else (b.getTokens op.2).2

theorem refill_capacity (b : TokenBucket) (now : ℚ) :
    (b.refill now).capacity = b.capacity := rfl

theorem refill_refillRate (b : TokenBucket) (now : ℚ) :
    (b.refill now).refillRate = b.refillRate := rfl

theorem refill_lastRefill (b : TokenBucket) (now : ℚ) :
    (b.refill now).lastRefill = now := rfl

theorem refill_tokens_nonneg (b : TokenBucket) (now : ℚ)
    (hr : 0 ≤ b.refillRate) (h0 : 0 ≤ b.tokens) (hc : b.tokens ≤ b.capacity)
    (ht : b.lastRefill ≤ now) : 0 ≤ (b.refill now).tokens := by
  have hadd : 0 ≤ (now - b.lastRefill) / 1000 * b.refillRate := by
    apply mul_nonneg _ hr
    have : (0:ℚ) ≤ now - b.lastRefill := by linarith
    positivity
  have hcap : (0:ℚ) ≤ b.capacity := le_trans h0 hc
  simp only [refill]
  exact le_min hcap (by linarith)

theorem refill_tokens_le_capacity (b : TokenBucket) (now : ℚ) :
    (b.refill now).tokens ≤ b.capacity := by
  simp only [refill]
  exact min_le_left _ _

theorem applyOp_bounds (b : TokenBucket) (op : Bool × ℚ)
    (hr : 0 ≤ b.refillRate) (h0 : 0 ≤ b.tokens) (hc : b.tokens ≤ b.capacity)
    (ht : b.lastRefill ≤ op.2) :
    0 ≤ (b.applyOp op).tokens ∧ (b.applyOp op).tokens ≤ b.capacity := by
  have hlow := b.refill_tokens_nonneg op.2 hr h0 hc ht
  have hhigh := b.refill_tokens_le_capacity op.2
  rcases op with ⟨doConsume, now⟩
  cases doConsume with
  | false => exact ⟨hlow, hhigh⟩
  | true =>
    simp only [applyOp, tryConsume]
    by_cases h1 : 1 ≤ (b.refill now).tokens
    · simp only [h1, if_pos]
      exact ⟨by linarith, by linarith⟩
    · simp only [h1, if_neg, not_false_iff]
      exact ⟨hlow, hhigh⟩

theorem applyOp_capacity (b : TokenBucket) (op : Bool × ℚ) :
    (b.applyOp op).capacity = b.capacity := by
  rcases op with ⟨doConsume, now⟩
  cases doConsume with
  | false => rfl
  | true =>
    simp only [applyOp, tryConsume]
    by_cases h1 : 1 ≤ (b.refill now).tokens
    · rw [if_pos h1]; rfl
    · rw [if_neg h1]; rfl

theorem applyOp_refillRate (b : TokenBucket) (op : Bool × ℚ) :
    (b.applyOp op).refillRate = b.refillRate := by
  rcases op with ⟨doConsume, now⟩
  cases doConsume with
  | false => rfl
  | true =>
    simp only [applyOp, tryConsume]
    by_cases h1 : 1 ≤ (b.refill now).tokens
    · rw [if_pos h1]; rfl
    · rw [if_neg h1]; rfl

theorem applyOp_lastRefill (b : TokenBucket) (op : Bool × ℚ) :
    (b.applyOp op).lastRefill = op.2 := by
  rcases op with ⟨doConsume, now⟩
  cases doConsume with
  | false => rfl
  | true =>
    simp only [applyOp, tryConsume]
    by_cases h1 : 1 ≤ (b.refill now).tokens
    · rw [if_pos h1]; rfl
    · rw [if_neg h1]; rfl

/-- Chains restrict to prefixes. -/
theorem chain_take {α : Type} {r : α → α → Prop} :
    ∀ {l : List α} {a : α}, List.Chain r a l → ∀ n, List.Chain r a (l.take n) := by
  intro l
  induction l with
  | nil => intro a _ n; simp
  | cons x xs ih =>
    intro a h n
    cases n with
    | zero => simp
    | succ m =>
      cases h with
      | cons hax hxs => exact List.Chain.cons hax (ih hxs m)

/-- Core invariant: any sequence of bucket operations at nondecreasing
wall-clock times keeps the token count within `[0, capacity]`. -/
theorem foldl_applyOp_bounds :
    ∀ (ops : List (Bool × ℚ)) (b : TokenBucket),
      0 ≤ b.refillRate → 0 ≤ b.tokens → b.tokens ≤ b.capacity →
      List.Chain (· ≤ ·) b.lastRefill (ops.map Prod.snd) →
      0 ≤ (ops.foldl applyOp b).tokens ∧
        (ops.foldl applyOp b).tokens ≤ (ops.foldl applyOp b).capacity := by
  intro ops
  induction ops with
  | nil => intro b hr h0 hc _; exact ⟨h0, hc⟩
  | cons op rest ih =>
    intro b hr h0 hc hchain
    simp only [List.map_cons] at hchain
    cases hchain with
    | cons hle hrest =>
    have hb1 := b.applyOp_bounds op hr h0 hc hle
    have hcap := b.applyOp_capacity op
    have hrate := b.applyOp_refillRate op
    have hlast := b.applyOp_lastRefill op
    simp only [List.foldl_cons]
    exact ih (b.applyOp op) (hrate ▸ hr) hb1.1 (by rw [hcap]; exact hb1.2)
      (by rw [hlast]; exact hrest)

/-- Operation sequences never change the configured capacity. -/
theorem foldl_applyOp_capacity :
    ∀ (ops : List (Bool × ℚ)) (b : TokenBucket),
      (ops.foldl applyOp b).capacity = b.capacity := by
  intro ops
  induction ops with
  | nil => intro b; rfl
  | cons op rest ih =>
    intro b
    simp only [List.foldl_cons]
    rw [ih (b.applyOp op)]
    exact b.applyOp_capacity op

end TokenBucket

/-- C4. For every bucket with capacity > 0 and refill rate > 0, starting
from the freshly constructed (full) bucket, every finite sequence of
refill/consume operations at nondecreasing wall-clock times keeps the token
count within `[0, capacity]` at every observation point (i.e. after every
prefix of the operation sequence). -/
theorem tokenBucket_tokens_in_range
    (cap rate t0 : ℚ) (ops : List (Bool × ℚ))
    (hcap : 0 < cap) (hrate : 0 < rate)
    (hchain : List.Chain (· ≤ ·) t0 (ops.map Prod.snd)) :
    ∀ n : ℕ,
      0 ≤ ((ops.take n).foldl TokenBucket.applyOp (TokenBucket.new cap rate t0)).tokens ∧
        ((ops.take n).foldl TokenBucket.applyOp (TokenBucket.new cap rate t0)).tokens ≤ cap := by
  intro n
  have htake : List.Chain (· ≤ ·) t0 ((ops.take n).map Prod.snd) := by
    rw [List.map_take]
    exact TokenBucket.chain_take hchain n
  have h := TokenBucket.foldl_applyOp_bounds (ops.take n)
    (TokenBucket.new cap rate t0) (le_of_lt hrate) (le_of_lt hcap) (le_refl _) htake
  have hc : ((ops.take n).foldl TokenBucket.applyOp
      (TokenBucket.new cap rate t0)).capacity = cap :=
    TokenBucket.foldl_applyOp_capacity (ops.take n) (TokenBucket.new cap rate t0)
  exact ⟨h.1, le_trans h.2 (le_of_eq hc)⟩

/-- C4 witness. -/
theorem tokenBucket_tokens_in_range_witness :
    0 ≤ (([((true : Bool), (0:ℚ)), (true, 1000), (false, 2500)].take 3).foldl
        TokenBucket.applyOp (TokenBucket.new 30 (1/2) 0)).tokens ∧
      (([((true : Bool), (0:ℚ)), (true, 1000), (false, 2500)].take 3).foldl
        TokenBucket.applyOp (TokenBucket.new 30 (1/2) 0)).tokens ≤ 30 :=
  tokenBucket_tokens_in_range 30 (1/2) 0 _ (by norm_num) (by norm_num)
    (by simp; norm_num) 3

/-! ## `tryConsume` case analysis lemmas -/

namespace TokenBucket

theorem tryConsume_of_available (b : TokenBucket) (now : ℚ)
    (h : 1 ≤ (b.refill now).tokens) :
    b.tryConsume now =
      ({ allowed := true, retryAfterSeconds := 0 },
        { b.refill now with tokens := (b.refill now).tokens - 1 }) := by
  simp only [tryConsume]
  rw [if_pos h]

theorem tryConsume_of_empty (b : TokenBucket) (now : ℚ)
    (h : ¬ 1 ≤ (b.refill now).tokens) :
    b.tryConsume now =
      ({ allowed := false,
         retryAfterSeconds := ⌈(1 - (b.refill now).tokens) / b.refillRate⌉ },
        b.refill now) := by
  simp only [tryConsume]
  rw [if_neg h]
  rfl

theorem tryConsume_allowed_tokens (b : TokenBucket) (now : ℚ)
    (h : (b.tryConsume now).1.allowed = true) :
    (b.tryConsume now).2.tokens = (b.refill now).tokens - 1 := by
  by_cases h1 : 1 ≤ (b.refill now).tokens
  · rw [tryConsume_of_available b now h1]
  · rw [tryConsume_of_empty b now h1] at h
    simp at h

theorem tryConsume_not_allowed_state (b : TokenBucket) (now : ℚ)
    (h : (b.tryConsume now).1.allowed = false) :
    (b.tryConsume now).2 = b.refill now := by
  by_cases h1 : 1 ≤ (b.refill now).tokens
  · rw [tryConsume_of_available b now h1] at h
    simp at h
  · rw [tryConsume_of_empty b now h1]

end TokenBucket

/-! ## C1: what each rejection branch does to the *other* bucket

The claim says that when the per-caller bucket rejects, the global bucket is
left with the same token count it had before the attempt (post-refill).
In the code the global bucket is consumed from *before* the per-caller
bucket is even read, and the token is never refunded, so the claim fails;
the counterexample below exhibits it.  What does hold: a global rejection
leaves the per-caller map untouched, and a per-caller rejection consumes no
per-caller token but leaves the global bucket one token below its
post-refill pre-attempt count. -/

/-- C1 counterexample: global bucket full (100 tokens), caller's bucket
empty; the attempt is rejected by the per-caller bucket, yet the global
bucket ends at 99 tokens while its pre-attempt (post-refill) count was 100. -/
theorem rateLimit_global_consumed_on_user_reject_cex :
    (rateLimitMiddleware
        { globalBucket := ⟨100, 167/100, 100, 0⟩,
          userBuckets := [(1, ⟨30, 1/2, 0, 0⟩)] } 1 0).1
      = .blocked .userScope 2 ∧
    ((({ globalBucket := ⟨100, 167/100, 100, 0⟩,
          userBuckets := [(1, ⟨30, 1/2, 0, 0⟩)] } : RLState).globalBucket.refill 0).tokens
      = 100) ∧
    (rateLimitMiddleware
        { globalBucket := ⟨100, 167/100, 100, 0⟩,
          userBuckets := [(1, ⟨30, 1/2, 0, 0⟩)] } 1 0).2.globalBucket.tokens = 99 := by
  refine ⟨?_, ?_, ?_⟩ <;>
    norm_num [rateLimitMiddleware, getUserBucket, alookup, ainsert,
      TokenBucket.tryConsume, TokenBucket.refill, TokenBucket.getTokens]

/-- C1 amended: when the global bucket rejects, the per-caller bucket map is
untouched; when the per-caller bucket rejects, the per-caller bucket loses
no token (it is only refilled), but the global bucket has already had one
token consumed (one below its post-refill pre-attempt count), which is not
refunded. -/
theorem rateLimit_rejection_effect_on_other_bucket (s : RLState) (userId : ℕ) (now : ℚ) :
    (∀ r : ℤ, (rateLimitMiddleware s userId now).1 = .blocked .globalScope r →
      (rateLimitMiddleware s userId now).2.userBuckets = s.userBuckets) ∧
    (∀ r : ℤ, (rateLimitMiddleware s userId now).1 = .blocked .userScope r →
      (rateLimitMiddleware s userId now).2.globalBucket.tokens
          = (s.globalBucket.refill now).tokens - 1 ∧
        alookup (rateLimitMiddleware s userId now).2.userBuckets userId
          = some ((getUserBucket s.userBuckets userId now).1.refill now)) := by
  by_cases hg : (s.globalBucket.tryConsume now).1.allowed = false
  · constructor
    · intro r _
      simp only [rateLimitMiddleware]
      rw [if_pos hg]
    · intro r hout
      simp only [rateLimitMiddleware] at hout
      rw [if_pos hg] at hout
      simp at hout
  · have hg1 : (s.globalBucket.tryConsume now).1.allowed = true := by
      cases h : (s.globalBucket.tryConsume now).1.allowed
      · exact absurd h hg
      · rfl
    by_cases hu :
        ((getUserBucket s.userBuckets userId now).1.tryConsume now).1.allowed = false
    · constructor
      · intro r hout
        simp only [rateLimitMiddleware] at hout
        rw [if_neg hg] at hout
        rw [if_pos hu] at hout
        simp at hout
      · intro r _
        simp only [rateLimitMiddleware]
        rw [if_neg hg, if_pos hu]
        refine ⟨?_, ?_⟩
        · exact TokenBucket.tryConsume_allowed_tokens s.globalBucket now hg1
        · rw [TokenBucket.tryConsume_not_allowed_state _ now hu]
          exact alookup_ainsert_self _ _ _
    · constructor
      · intro r hout
        simp only [rateLimitMiddleware] at hout
        rw [if_neg hg, if_neg hu] at hout
        simp at hout
      · intro r hout
        simp only [rateLimitMiddleware] at hout
        rw [if_neg hg, if_neg hu] at hout
        simp at hout

/-- C1 witness: the amended theorem applied on the global-rejection side
(global bucket empty) and on the per-caller-rejection side (global full,
caller's bucket empty). -/
theorem rateLimit_rejection_effect_on_other_bucket_witness :
    ((rateLimitMiddleware
        { globalBucket := ⟨100, 167/100, 0, 0⟩,
          userBuckets := [(1, ⟨30, 1/2, 30, 0⟩)] } 1 0).2.userBuckets
      = [(1, ⟨30, 1/2, 30, 0⟩)]) ∧
    ((rateLimitMiddleware
        { globalBucket := ⟨100, 167/100, 100, 0⟩,
          userBuckets := [(1, ⟨30, 1/2, 0, 0⟩)] } 1 0).2.globalBucket.tokens
        = (({ globalBucket := ⟨100, 167/100, 100, 0⟩,
              userBuckets := [(1, ⟨30, 1/2, 0, 0⟩)] } : RLState).globalBucket.refill 0).tokens
            - 1 ∧
      alookup (rateLimitMiddleware
          { globalBucket := ⟨100, 167/100, 100, 0⟩,
            userBuckets := [(1, ⟨30, 1/2, 0, 0⟩)] } 1 0).2.userBuckets 1
        = some ((getUserBucket [(1, ⟨30, 1/2, 0, 0⟩)] 1 0).1.refill 0)) :=
  ⟨(rateLimit_rejection_effect_on_other_bucket
      { globalBucket := ⟨100, 167/100, 0, 0⟩,
        userBuckets := [(1, ⟨30, 1/2, 30, 0⟩)] } 1 0).1 1
      (by
        norm_num [rateLimitMiddleware, getUserBucket, alookup, ainsert,
          TokenBucket.tryConsume, TokenBucket.refill, TokenBucket.getTokens]
        rw [Int.ceil_eq_iff]
        norm_num),
   (rateLimit_rejection_effect_on_other_bucket
      { globalBucket := ⟨100, 167/100, 100, 0⟩,
        userBuckets := [(1, ⟨30, 1/2, 0, 0⟩)] } 1 0).2 2
      (by norm_num [rateLimitMiddleware, getUserBucket, alookup, ainsert,
        TokenBucket.tryConsume, TokenBucket.refill, TokenBucket.getTokens])⟩

/-! ## C5: burst behaviour

The state of a bucket (created full at the time of the first attempt, as
`getUserBucket` does) after `k` admission attempts at times `t 0, …,
t (k-1)`. -/

def attemptsState (b : TokenBucket) (t : ℕ → ℚ) : ℕ → TokenBucket
  | 0 => b
  | k + 1 => ((attemptsState b t k).tryConsume (t k)).2

/-- Invariant along a burst: after `k ≤ cap` attempts the bucket still has
its configuration, its `lastRefill` is at most the next attempt time, and
its token count lies between `cap - k` and
`cap - k + (lastRefill - t 0)/1000 * r`. -/
theorem attemptsState_invariant
    (cap : ℕ) (r : ℚ) (t : ℕ → ℚ)
    (hr : 0 < r)
    (hmono : ∀ k, k < cap → t k ≤ t (k + 1)) :
    ∀ k, k ≤ cap →
      (attemptsState (TokenBucket.new (cap : ℚ) r (t 0)) t k).capacity = (cap : ℚ) ∧
      (attemptsState (TokenBucket.new (cap : ℚ) r (t 0)) t k).refillRate = r ∧
      (attemptsState (TokenBucket.new (cap : ℚ) r (t 0)) t k).lastRefill ≤ t k ∧
      (cap : ℚ) - k ≤ (attemptsState (TokenBucket.new (cap : ℚ) r (t 0)) t k).tokens ∧
      (attemptsState (TokenBucket.new (cap : ℚ) r (t 0)) t k).tokens
        ≤ (cap : ℚ) - k +
          ((attemptsState (TokenBucket.new (cap : ℚ) r (t 0)) t k).lastRefill - t 0)
            / 1000 * r := by
  intro k
  induction k with
  | zero =>
    intro _
    refine ⟨rfl, rfl, le_refl _, ?_, ?_⟩
    · simp [attemptsState, TokenBucket.new]
    · simp [attemptsState, TokenBucket.new]
  | succ k ih =>
    intro hk1
    have hklt : k < cap := hk1
    obtain ⟨hc, hrt, hlr, hlo, hhi⟩ := ih (Nat.le_of_lt hklt)
    set s := attemptsState (TokenBucket.new (cap : ℚ) r (t 0)) t k with hs
    have hcapk : (1 : ℚ) ≤ (cap : ℚ) - k := by
      have hcast : (k : ℚ) + 1 ≤ (cap : ℚ) := by exact_mod_cast hk1
      linarith
    have hab : 0 ≤ (t k - s.lastRefill) / 1000 * s.refillRate := by
      rw [hrt]
      apply mul_nonneg _ hr.le
      apply div_nonneg _ (by norm_num)
      linarith
    have htok1lo : (cap : ℚ) - k ≤ (s.refill (t k)).tokens := by
      show (cap : ℚ) - k
          ≤ min s.capacity (s.tokens + (t k - s.lastRefill) / 1000 * s.refillRate)
      apply le_min
      · rw [hc]; linarith [Nat.cast_nonneg (α := ℚ) k]
      · linarith
    have h1le : (1 : ℚ) ≤ (s.refill (t k)).tokens := le_trans hcapk htok1lo
    have hstep : attemptsState (TokenBucket.new (cap : ℚ) r (t 0)) t (k + 1)
        = { s.refill (t k) with tokens := (s.refill (t k)).tokens - 1 } := by
      show (s.tryConsume (t k)).2 = _
      rw [TokenBucket.tryConsume_of_available s (t k) h1le]
    have htok1hi : (s.refill (t k)).tokens ≤ (cap : ℚ) - k + (t k - t 0) / 1000 * r := by
      have h2 : (s.refill (t k)).tokens
          ≤ s.tokens + (t k - s.lastRefill) / 1000 * s.refillRate := by
        show min s.capacity (s.tokens + (t k - s.lastRefill) / 1000 * s.refillRate) ≤ _
        exact min_le_right _ _
      rw [hrt] at h2
      have hring : (s.lastRefill - t 0) / 1000 * r + (t k - s.lastRefill) / 1000 * r
          = (t k - t 0) / 1000 * r := by ring
      linarith
    refine ⟨?_, ?_, ?_, ?_, ?_⟩
    · rw [hstep]
      show (s.refill (t k)).capacity = (cap : ℚ)
      rw [TokenBucket.refill_capacity, hc]
    · rw [hstep]
      show (s.refill (t k)).refillRate = r
      rw [TokenBucket.refill_refillRate, hrt]
    · rw [hstep]
      show (s.refill (t k)).lastRefill ≤ t (k + 1)
      rw [TokenBucket.refill_lastRefill]
      exact hmono k hklt
    · rw [hstep]
      show (cap : ℚ) - (k + 1 : ℕ) ≤ (s.refill (t k)).tokens - 1
      push_cast
      linarith
    · have htk : (attemptsState (TokenBucket.new (cap : ℚ) r (t 0)) t (k + 1)).tokens
          = (s.refill (t k)).tokens - 1 := by rw [hstep]
      have hlk : (attemptsState (TokenBucket.new (cap : ℚ) r (t 0)) t (k + 1)).lastRefill
          = t k := by rw [hstep]; exact TokenBucket.refill_lastRefill s (t k)
      rw [htk, hlk]
      push_cast
      linarith

/-- C5 amended: for every bucket of capacity `cap ≥ 1` and refill rate
`r > 0`, a caller issuing `cap + 1` attempts inside a window shorter than
`1 / r` seconds (not `cap / r` as first stated) has its first `cap`
attempts admitted and the `(cap+1)`-th rejected, with
`retryAfterSeconds = ceil((1 - tokens)/r) ≥ 1`. -/
theorem burst_over_capacity_rejected
    (cap : ℕ) (r : ℚ) (t : ℕ → ℚ)
    (_hcap : 1 ≤ cap) (hr : 0 < r)
    (hmono : ∀ k, k < cap → t k ≤ t (k + 1))
    (hwin : (t cap - t 0) / 1000 * r < 1) :
    (∀ k, k < cap →
      ((attemptsState (TokenBucket.new (cap : ℚ) r (t 0)) t k).tryConsume (t k)).1.allowed
        = true) ∧
    ((attemptsState (TokenBucket.new (cap : ℚ) r (t 0)) t cap).tryConsume (t cap)).1.allowed
        = false ∧
    1 ≤ ((attemptsState (TokenBucket.new (cap : ℚ) r (t 0)) t cap).tryConsume
        (t cap)).1.retryAfterSeconds := by
  have hinv := attemptsState_invariant cap r t hr hmono
  refine ⟨?_, ?_⟩
  · intro k hk
    obtain ⟨hc, hrt, hlr, hlo, hhi⟩ := hinv k (Nat.le_of_lt hk)
    set s := attemptsState (TokenBucket.new (cap : ℚ) r (t 0)) t k with hs
    have hcapk : (1 : ℚ) ≤ (cap : ℚ) - k := by
      have hcast : (k : ℚ) + 1 ≤ (cap : ℚ) := by exact_mod_cast hk
      linarith
    have hab : 0 ≤ (t k - s.lastRefill) / 1000 * s.refillRate := by
      rw [hrt]
      apply mul_nonneg _ hr.le
      apply div_nonneg _ (by norm_num)
      linarith
    have h1le : (1 : ℚ) ≤ (s.refill (t k)).tokens := by
      show (1 : ℚ)
          ≤ min s.capacity (s.tokens + (t k - s.lastRefill) / 1000 * s.refillRate)
      apply le_min
      · rw [hc]; linarith [Nat.cast_nonneg (α := ℚ) k]
      · linarith
    rw [TokenBucket.tryConsume_of_available s (t k) h1le]
  · obtain ⟨hc, hrt, hlr, hlo, hhi⟩ := hinv cap (le_refl cap)
    set s := attemptsState (TokenBucket.new (cap : ℚ) r (t 0)) t cap with hs
    have h2 : (s.refill (t cap)).tokens
        ≤ s.tokens + (t cap - s.lastRefill) / 1000 * s.refillRate := by
      show min s.capacity (s.tokens + (t cap - s.lastRefill) / 1000 * s.refillRate) ≤ _
      exact min_le_right _ _
    rw [hrt] at h2
    have hring : (s.lastRefill - t 0) / 1000 * r + (t cap - s.lastRefill) / 1000 * r
        = (t cap - t 0) / 1000 * r := by ring
    have hzero : (cap : ℚ) - (cap : ℕ) = 0 := by simp
    have hup : (s.refill (t cap)).tokens < 1 := by
      have hhi0 : s.tokens ≤ (s.lastRefill - t 0) / 1000 * r := by
        calc s.tokens ≤ (cap : ℚ) - cap + (s.lastRefill - t 0) / 1000 * r := hhi
        _ = (s.lastRefill - t 0) / 1000 * r := by rw [hzero]; ring
      linarith
    have hnot : ¬ (1 : ℚ) ≤ (s.refill (t cap)).tokens := not_le.mpr hup
    rw [TokenBucket.tryConsume_of_empty s (t cap) hnot]
    refine ⟨rfl, ?_⟩
    show 1 ≤ ⌈(1 - (s.refill (t cap)).tokens) / s.refillRate⌉
    have hpos : 0 < (1 - (s.refill (t cap)).tokens) / s.refillRate := by
      rw [hrt]
      apply div_pos _ hr
      linarith
    have := Int.ceil_pos.mpr hpos
    omega

/-- Times of the C5 counterexample burst: three attempts 900 ms apart. -/
def cexTimes : ℕ → ℚ := fun k => 900 * k

/-- C5 counterexample: capacity 2, refill rate 1 token/s; three attempts
at 0 ms, 900 ms, 1800 ms — a window of 1.8 s, shorter than
`capacity / refillRate = 2` s — yet the third (the `(capacity+1)`-th)
attempt is still admitted, because the bucket refilled 0.9 tokens between
consecutive attempts. -/
theorem burst_within_cap_over_rate_not_rejected_cex :
    (cexTimes 2 - cexTimes 0) / 1000 < (2 : ℚ) / 1 ∧
    ((attemptsState (TokenBucket.new ((2 : ℕ) : ℚ) 1 (cexTimes 0)) cexTimes 2).tryConsume
        (cexTimes 2)).1.allowed = true := by
  refine ⟨by norm_num [cexTimes], ?_⟩
  norm_num [attemptsState, cexTimes, TokenBucket.new, TokenBucket.tryConsume,
    TokenBucket.refill]

/-- Times of the C5 witness burst: 31 attempts 60 ms apart (window 1.8 s,
shorter than `1 / 0.5 = 2` s). -/
def wTimes : ℕ → ℚ := fun k => 60 * k

/-- C5 witness: the spec's concrete instance — capacity 30, refill rate
0.5 tokens/s, 31 attempts within less than 2 seconds: the 31st attempt is
rejected with `retryAfterSeconds ≥ 1`. -/
theorem burst_over_capacity_rejected_witness :
    ((attemptsState (TokenBucket.new ((30 : ℕ) : ℚ) (1/2) (wTimes 0)) wTimes 30).tryConsume
        (wTimes 30)).1.allowed = false ∧
    1 ≤ ((attemptsState (TokenBucket.new ((30 : ℕ) : ℚ) (1/2) (wTimes 0)) wTimes 30).tryConsume
        (wTimes 30)).1.retryAfterSeconds :=
  (burst_over_capacity_rejected 30 (1/2) wTimes (by norm_num) (by norm_num)
    (by
      intro k _
      show (60 : ℚ) * (k : ℕ) ≤ 60 * ((k + 1 : ℕ) : ℚ)
      push_cast
      linarith)
    (by norm_num [wTimes])).2

/-! ## The timeout utility (`src/utils/timeout.util.ts`, `executeWithTimeout`)

`executeWithTimeout` races the wrapped promise against a `setTimeout` of
`timeoutMs` milliseconds that rejects with a `TimeoutError` carrying the
message `errorMessage + " (" + timeoutMs + "ms)"` and the `timeoutMs`
value.  We model the wrapped promise by the time at which it settles and
its outcome (resolution or rejection), and `Promise.race` by comparing the
settle time with the deadline; the event ordering of an exact tie is not
determined by the source, so it is an explicit parameter. -/

inductive OpOutcome (α ε : Type) where
  | resolved (v : α)
  | rejected (e : ε)
  deriving DecidableEq, Repr

inductive ExecResult (α ε : Type) where
  | resolved (v : α)
  | rejected (e : ε)
  | timedOut (message : String) (timeoutMs : ℕ)
  deriving DecidableEq, Repr

/-- The operation's own outcome, embedded in the race result type. -/
def OpOutcome.toResult {α ε : Type} : OpOutcome α ε → ExecResult α ε
  | .resolved v => .resolved v
  | .rejected e => .rejected e

/-- `executeWithTimeout(promise, timeoutMs, errorMessage)` where `promise`
settles at `opSettleMs` with outcome `op`.  `tieTimerFirst` resolves the
(unspecified) ordering when both settle in the same millisecond. -/
def executeWithTimeout {α ε : Type} (opSettleMs : ℕ) (op : OpOutcome α ε)
    (timeoutMs : ℕ) (errorMessage : String) (tieTimerFirst : Bool) : ExecResult α ε :=
  let timeoutMessage := errorMessage ++ " (" ++ toString timeoutMs ++ "ms)"
  if opSettleMs < timeoutMs then op.toResult
  else if timeoutMs < opSettleMs then .timedOut timeoutMessage timeoutMs
  else if tieTimerFirst then .timedOut timeoutMessage timeoutMs
  else op.toResult

/-- C3. If the operation settles strictly before `timeoutMs`, the caller
gets the operation's own outcome (its resolution or its rejection);
if `timeoutMs` elapses strictly first, the caller gets the distinct
`TimeoutError` (with the `(...ms)` message and the `timeoutMs` field) and
never the operation's value. -/
theorem executeWithTimeout_contract {α ε : Type}
    (opSettleMs timeoutMs : ℕ) (op : OpOutcome α ε) (msg : String) (tie : Bool) :
    (opSettleMs < timeoutMs →
      executeWithTimeout opSettleMs op timeoutMs msg tie = op.toResult) ∧
    (timeoutMs < opSettleMs →
      executeWithTimeout opSettleMs op timeoutMs msg tie
          = .timedOut (msg ++ " (" ++ toString timeoutMs ++ "ms)") timeoutMs ∧
        ∀ v : α, executeWithTimeout opSettleMs op timeoutMs msg tie ≠ .resolved v) := by
  constructor
  · intro hfast
    simp only [executeWithTimeout]
    rw [if_pos hfast]
  · intro hslow
    have hnot : ¬ opSettleMs < timeoutMs := Nat.not_lt.mpr (Nat.le_of_lt hslow)
    constructor
    · simp only [executeWithTimeout]
      rw [if_neg hnot, if_pos hslow]
    · intro v
      simp only [executeWithTimeout]
      rw [if_neg hnot, if_pos hslow]
      intro hcontra
      exact ExecResult.noConfusion hcontra

/-- C3 witness: an operation resolving at 9 ms under a 10 ms deadline
returns its own value; one resolving at 11 ms gets the timeout error. -/
theorem executeWithTimeout_contract_witness :
    (executeWithTimeout 9 (OpOutcome.resolved (42 : ℕ)) 10 "Operation timed out" false
        = (OpOutcome.resolved (42 : ℕ) (ε := String)).toResult) ∧
    (executeWithTimeout 11 (OpOutcome.resolved (42 : ℕ) (ε := String)) 10
          "Operation timed out" false
        = ExecResult.timedOut ("Operation timed out" ++ " (" ++ toString 10 ++ "ms)") 10 ∧
      ∀ v : ℕ, executeWithTimeout 11 (OpOutcome.resolved (42 : ℕ) (ε := String)) 10
          "Operation timed out" false ≠ ExecResult.resolved v) :=
  ⟨(executeWithTimeout_contract 9 10 (OpOutcome.resolved 42) "Operation timed out" false).1
      (by decide),
   (executeWithTimeout_contract 11 10 (OpOutcome.resolved 42) "Operation timed out" false).2
      (by decide)⟩

/-! ## The tool permission service (`tool-permission.service`)

The module state is the pair of maps `permissionCache` / `cacheTimestamps`
keyed by `"userId:toolName"`.  The Supabase query of
`checkToolPermission` selects `is_allowed, revoked_at`; its outcome —
`{ data, error }` or a thrown exception — is passed as an explicit
parameter, and the write of `grant`/`revoke` likewise carries an optional
error. -/

def CACHE_TTL_MS : ℤ := 60000

structure PermCacheState where
  permissionCache : List (String × Bool)
  cacheTimestamps : List (String × ℤ)
  deriving DecidableEq, Repr

/-- The cache key `` `${userId}:${toolName}` ``. -/
def permCacheKey (userId : ℕ) (toolName : String) : String :=
  toString userId ++ ":" ++ toolName

/-- The cache-hit test of `checkToolPermission`: a cached value exists, the
cached timestamp is truthy (present and nonzero), and it is fresh. -/
def cacheHit (c : PermCacheState) (key : String) (now : ℤ) : Option Bool :=
  match alookup c.permissionCache key, alookup c.cacheTimestamps key with
  | some v, some t => if t ≠ 0 ∧ now - t < CACHE_TTL_MS then some v else none
  | some _, none => none
  | none, _ => none

/-- The two columns `checkToolPermission` selects. -/
structure PermRow where
  is_allowed : Bool
  revoked_at : Option ℤ
  deriving DecidableEq, Repr

/-- Outcome of the `tool_permissions` select: a `{ data, error }` pair with
`maybeSingle` data, or a thrown exception. -/
inductive QueryOutcome where
  | ok (row : Option PermRow)
  | err (msg : String)
  | exn
  deriving DecidableEq, Repr

/-- `checkToolPermission(userId, toolName)` at wall-clock `now`, with the
store query outcome `q`: serve a fresh cache entry, else consult the
query; on error or exception return `false` (fail closed); on data,
compute `is_allowed === true && revoked_at === null`, cache it, return
it.  The function is total: no exception propagates to the caller. -/
def checkToolPermission (c : PermCacheState) (userId : ℕ) (toolName : String)
    (now : ℤ) (q : QueryOutcome) : Bool × PermCacheState :=
  let cacheKey := permCacheKey userId toolName
  match cacheHit c cacheKey now with
  | some v => (v, c)
  | none =>
    match q with
    | .err _ => (false, c)
    | .exn => (false, c)
    | .ok data =>
      let isAllowed :=
        match data with
        | some row => row.is_allowed && row.revoked_at.isNone
        | none => false
      (isAllowed,
        { permissionCache := ainsert c.permissionCache cacheKey isAllowed,
          cacheTimestamps := ainsert c.cacheTimestamps cacheKey now })

/-- A full row of the `tool_permissions` table. -/
structure ToolPermissionRow where
  is_allowed : Bool
  granted_at : Option ℤ
  granted_by : Option ℕ
  revoked_at : Option ℤ
  revoked_by : Option ℕ
  notes : Option String
  deriving DecidableEq, Repr

/-- The `tool_permissions` table, keyed by
`(telegram_user_id, tool_name)` (the upsert conflict key). -/
abbrev ToolPermissionStore := List ((ℕ × String) × ToolPermissionRow)

/-- The select `checkToolPermission` performs, reading the current store. -/
def storeSelect (st : ToolPermissionStore) (userId : ℕ) (toolName : String) :
    Option PermRow :=
  (alookup st (userId, toolName)).map (fun r => ⟨r.is_allowed, r.revoked_at⟩)

/-- `grantToolPermission`: upsert the row (allowed, fresh grant metadata,
cleared revocation) keyed on `(telegram_user_id, tool_name)`, then delete
the cache entry; on write error return `false` with nothing invalidated. -/
def grantToolPermission (st : ToolPermissionStore) (c : PermCacheState)
    (userId : ℕ) (toolName : String) (grantedBy : Option ℕ) (notes : Option String)
    (now : ℤ) (writeError : Option String) :
    Bool × ToolPermissionStore × PermCacheState :=
  match writeError with
  | some _ => (false, st, c)
  | none =>
    let st1 := ainsert st (userId, toolName)
      { is_allowed := true, granted_at := some now, granted_by := grantedBy,
        revoked_at := none, revoked_by := none, notes := notes }
    let cacheKey := permCacheKey userId toolName
    (true, st1,
      { permissionCache := aerase c.permissionCache cacheKey,
        cacheTimestamps := aerase c.cacheTimestamps cacheKey })

/-- `revokeToolPermission`: update the existing row (if any) to disallowed
with revocation metadata, then delete the cache entry; on write error
return `false` with nothing invalidated. -/
def revokeToolPermission (st : ToolPermissionStore) (c : PermCacheState)
    (userId : ℕ) (toolName : String) (revokedBy : Option ℕ)
    (now : ℤ) (writeError : Option String) :
    Bool × ToolPermissionStore × PermCacheState :=
  match writeError with
  | some _ => (false, st, c)
  | none =>
    let st1 :=
      match alookup st (userId, toolName) with
      | some row => ainsert st (userId, toolName)
          { row with is_allowed := false, revoked_at := some now, revoked_by := revokedBy }
      | none => st
    let cacheKey := permCacheKey userId toolName
    (true, st1,
      { permissionCache := aerase c.permissionCache cacheKey,
        cacheTimestamps := aerase c.cacheTimestamps cacheKey })

/-- A deleted cache entry can never produce a hit. -/
theorem cacheHit_after_erase (c : PermCacheState) (key : String) (now : ℤ) :
    cacheHit
      { permissionCache := aerase c.permissionCache key,
        cacheTimestamps := aerase c.cacheTimestamps key } key now = none := by
  simp [cacheHit, alookup_aerase_self]

/-- C2. Whenever the allowlist store query fails — returns an error or
throws — and the cache cannot answer (no fresh entry, which is the only
situation in which the query runs), `checkToolPermission` returns
`false`, never `true`; the embedding is a total function, so no exception
propagates. -/
theorem checkToolPermission_fail_closed (c : PermCacheState)
    (userId : ℕ) (toolName : String) (now : ℤ) (msg : String)
    (hmiss : cacheHit c (permCacheKey userId toolName) now = none) :
    (checkToolPermission c userId toolName now (.err msg)).1 = false ∧
    (checkToolPermission c userId toolName now .exn).1 = false := by
  constructor <;> · simp only [checkToolPermission]; rw [hmiss]

/-- C2 witness: empty cache, failing query. -/
theorem checkToolPermission_fail_closed_witness :
    (checkToolPermission ⟨[], []⟩ 1 "web_search" 5 (.err "network down")).1 = false ∧
    (checkToolPermission ⟨[], []⟩ 1 "web_search" 5 .exn).1 = false :=
  checkToolPermission_fail_closed ⟨[], []⟩ 1 "web_search" 5 "network down" rfl

/-- C10. When the store query errors or throws, the cache is left exactly
as it was: the fail-closed `false` is not written into it, so the next
check for the same pair misses the cache and queries the store again. -/
theorem checkToolPermission_error_cache_unchanged (c : PermCacheState)
    (userId : ℕ) (toolName : String) (now : ℤ) (msg : String)
    (hmiss : cacheHit c (permCacheKey userId toolName) now = none) :
    (checkToolPermission c userId toolName now (.err msg)).2 = c ∧
    (checkToolPermission c userId toolName now .exn).2 = c := by
  constructor <;> · simp only [checkToolPermission]; rw [hmiss]

/-- C10 witness: a cache holding an unrelated (and an expired) entry is
untouched by a failing check. -/
theorem checkToolPermission_error_cache_unchanged_witness :
    (checkToolPermission ⟨[("2:web_search", true)], [("2:web_search", 1)]⟩
        1 "web_search" 5 (.err "network down")).2
      = ⟨[("2:web_search", true)], [("2:web_search", 1)]⟩ ∧
    (checkToolPermission ⟨[("2:web_search", true)], [("2:web_search", 1)]⟩
        1 "web_search" 5 .exn).2
      = ⟨[("2:web_search", true)], [("2:web_search", 1)]⟩ :=
  checkToolPermission_error_cache_unchanged
    ⟨[("2:web_search", true)], [("2:web_search", 1)]⟩ 1 "web_search" 5 "network down" rfl

/-- C6. Granting then immediately checking yields `true`; revoking then
immediately checking yields `false` — never a stale cached `true` — for
every prior store and cache state: both writes go through to the store
and *delete* the cache entry (shown explicitly), so the following check
re-reads the store. -/
theorem grant_revoke_check_roundtrip (st : ToolPermissionStore) (c : PermCacheState)
    (userId : ℕ) (toolName : String) (grantedBy revokedBy : Option ℕ)
    (notes : Option String) (t1 t2 t3 t4 : ℤ) :
    (grantToolPermission st c userId toolName grantedBy notes t1 none).1 = true ∧
    alookup (grantToolPermission st c userId toolName grantedBy notes t1
        none).2.2.permissionCache (permCacheKey userId toolName) = none ∧
    (checkToolPermission
        (grantToolPermission st c userId toolName grantedBy notes t1 none).2.2
        userId toolName t2
        (.ok (storeSelect
          (grantToolPermission st c userId toolName grantedBy notes t1 none).2.1
          userId toolName))).1 = true ∧
    (revokeToolPermission st c userId toolName revokedBy t3 none).1 = true ∧
    alookup (revokeToolPermission st c userId toolName revokedBy t3
        none).2.2.permissionCache (permCacheKey userId toolName) = none ∧
    (checkToolPermission
        (revokeToolPermission st c userId toolName revokedBy t3 none).2.2
        userId toolName t4
        (.ok (storeSelect
          (revokeToolPermission st c userId toolName revokedBy t3 none).2.1
          userId toolName))).1 = false := by
  refine ⟨rfl, ?_, ?_, rfl, ?_, ?_⟩
  · exact alookup_aerase_self _ _
  · simp only [grantToolPermission, checkToolPermission]
    rw [cacheHit_after_erase]
    simp [storeSelect, alookup_ainsert_self]
  · simp only [revokeToolPermission]
    exact alookup_aerase_self _ _
  · simp only [revokeToolPermission, checkToolPermission]
    rw [cacheHit_after_erase]
    cases hrow : alookup st (userId, toolName) with
    | none => simp [storeSelect, hrow]
    | some row => simp [storeSelect, hrow, alookup_ainsert_self]

/-! ## Alert cooldown (`monitoring.service.ts`, `triggerAlert`)

The module state is the `alertCooldowns` map from alert type to the
timestamp of the last fire.  A firing emits exactly one `logger.warn`
alert line and one audit record of type `error`; we record a fired alert
as the pair (alert type, fire time) in the output trace. -/

def ALERT_COOLDOWN_MS : ℤ := 300000

/-- `triggerAlert(alertType, …)` at wall-clock `now`: skip when the last
fire is truthy (present and nonzero) and within the cooldown window;
otherwise record `now` as the last fire and fire the alert. -/
def triggerAlert (cooldowns : List (String × ℤ)) (alertType : String) (now : ℤ) :
    Bool × List (String × ℤ) :=
  match alookup cooldowns alertType with
  | some lastAlert =>
    if lastAlert ≠ 0 ∧ now - lastAlert < ALERT_COOLDOWN_MS then (false, cooldowns)
    else (true, ainsert cooldowns alertType now)
  | none => (true, ainsert cooldowns alertType now)

/-- Run a sequence of threshold-breach evaluations (each a `triggerAlert`
call) and collect the alerts that actually fire. -/
def runAlerts (cooldowns : List (String × ℤ)) : List (String × ℤ) → List (String × ℤ)
  | [] => []
  | (ty, now) :: rest =>
    let r := triggerAlert cooldowns ty now
    if r.1 then (ty, now) :: runAlerts r.2 rest else runAlerts r.2 rest

/-- `triggerAlert` when the type has never fired. -/
theorem triggerAlert_eq_of_none {m : List (String × ℤ)} {ty : String} {now : ℤ}
    (h : alookup m ty = none) :
    triggerAlert m ty now = (true, ainsert m ty now) := by
  simp [triggerAlert, h]

/-- `triggerAlert` inside the cooldown window (with a truthy last fire). -/
theorem triggerAlert_eq_of_guard {m : List (String × ℤ)} {ty : String} {now tl : ℤ}
    (h : alookup m ty = some tl)
    (hg : tl ≠ 0 ∧ now - tl < ALERT_COOLDOWN_MS) :
    triggerAlert m ty now = (false, m) := by
  simp only [triggerAlert, h]
  rw [if_pos hg]

/-- `triggerAlert` outside the cooldown window (or with last fire 0). -/
theorem triggerAlert_eq_of_expired {m : List (String × ℤ)} {ty : String} {now tl : ℤ}
    (h : alookup m ty = some tl)
    (hg : ¬ (tl ≠ 0 ∧ now - tl < ALERT_COOLDOWN_MS)) :
    triggerAlert m ty now = (true, ainsert m ty now) := by
  simp only [triggerAlert, h]
  rw [if_neg hg]

/-- Induction core for the cooldown invariant: under nondecreasing,
positive wall-clock times and a cooldown map whose entries are positive
and in the past, any fired alert comes at least a cooldown after the
map's entry for its type, and fired alerts of equal type are pairwise at
least a cooldown apart. -/
theorem runAlerts_gap :
    ∀ (trace : List (String × ℤ)) (m : List (String × ℤ)),
      List.Pairwise (· ≤ ·) (trace.map Prod.snd) →
      (∀ p ∈ trace, 0 < p.2) →
      (∀ ty tl, alookup m ty = some tl → 0 < tl) →
      (∀ ty tl, alookup m ty = some tl → ∀ p ∈ trace, tl ≤ p.2) →
      (∀ f ∈ runAlerts m trace, ∀ tl, alookup m f.1 = some tl →
        tl + ALERT_COOLDOWN_MS ≤ f.2) ∧
      List.Pairwise (fun a b => a.1 = b.1 → a.2 + ALERT_COOLDOWN_MS ≤ b.2)
        (runAlerts m trace) := by
  intro trace
  induction trace with
  | nil =>
    intro m _ _ _ _
    exact ⟨by intro f hf; simp [runAlerts] at hf, by simp [runAlerts]⟩
  | cons p rest ih =>
    obtain ⟨ty, now⟩ := p
    intro m hsorted hpos hmpos hmpast
    simp only [List.map_cons, List.pairwise_cons] at hsorted
    obtain ⟨hnow_le, hsorted_rest⟩ := hsorted
    have hnow_pos : 0 < now := hpos (ty, now) (List.mem_cons_self _ _)
    have hpos_rest : ∀ q ∈ rest, 0 < q.2 := fun q hq => hpos q (List.mem_cons_of_mem _ hq)
    by_cases hfire : (triggerAlert m ty now).1 = true
    · -- the alert fires and the map is updated to `now`
      have heq : triggerAlert m ty now = (true, ainsert m ty now) := by
        cases hl : alookup m ty with
        | none => exact triggerAlert_eq_of_none hl
        | some tl =>
          by_cases hg : tl ≠ 0 ∧ now - tl < ALERT_COOLDOWN_MS
          · rw [triggerAlert_eq_of_guard hl hg] at hfire
            simp at hfire
          · exact triggerAlert_eq_of_expired hl hg
      have hguard : ∀ tl, alookup m ty = some tl → tl + ALERT_COOLDOWN_MS ≤ now := by
        intro tl hl
        by_cases hg : tl ≠ 0 ∧ now - tl < ALERT_COOLDOWN_MS
        · rw [triggerAlert_eq_of_guard hl hg] at hfire
          simp at hfire
        · push_neg at hg
          have htl0 : tl ≠ 0 := by
            have := hmpos ty tl hl
            omega
          have := hg htl0
          omega
      have hmpos2 : ∀ ty2 tl, alookup (ainsert m ty now) ty2 = some tl → 0 < tl := by
        intro ty2 tl hl
        by_cases he : ty = ty2
        · subst he
          rw [alookup_ainsert_self] at hl
          injection hl with h2
          omega
        · rw [alookup_ainsert_ne _ _ _ _ he] at hl
          exact hmpos ty2 tl hl
      have hmpast2 : ∀ ty2 tl, alookup (ainsert m ty now) ty2 = some tl →
          ∀ q ∈ rest, tl ≤ q.2 := by
        intro ty2 tl hl q hq
        by_cases he : ty = ty2
        · subst he
          rw [alookup_ainsert_self] at hl
          injection hl with h2
          subst h2
          exact hnow_le q.2 (List.mem_map_of_mem Prod.snd hq)
        · rw [alookup_ainsert_ne _ _ _ _ he] at hl
          exact hmpast ty2 tl hl q (List.mem_cons_of_mem _ hq)
      obtain ⟨ihA, ihB⟩ := ih (ainsert m ty now) hsorted_rest hpos_rest hmpos2 hmpast2
      have hout : runAlerts m ((ty, now) :: rest)
          = (ty, now) :: runAlerts (ainsert m ty now) rest := by
        simp only [runAlerts]
        rw [heq]
        simp
      rw [hout]
      constructor
      · intro f hf tl hl
        rcases List.mem_cons.mp hf with hhead | htail
        · subst hhead
          exact hguard tl hl
        · by_cases he : f.1 = ty
          · have hl2 : alookup (ainsert m ty now) f.1 = some now := by
              rw [he]
              exact alookup_ainsert_self _ _ _
            have h1 := ihA f htail now hl2
            have h2 : tl + ALERT_COOLDOWN_MS ≤ now := by
              rw [he] at hl
              exact hguard tl hl
            have hC : (0 : ℤ) ≤ ALERT_COOLDOWN_MS := by norm_num [ALERT_COOLDOWN_MS]
            omega
          · have hl2 : alookup (ainsert m ty now) f.1 = some tl := by
              rw [alookup_ainsert_ne _ _ _ _ (fun h => he h.symm)]
              exact hl
            exact ihA f htail tl hl2
      · rw [List.pairwise_cons]
        refine ⟨?_, ihB⟩
        intro f hf he
        have hl2 : alookup (ainsert m ty now) f.1 = some now := by
          rw [← he]
          exact alookup_ainsert_self _ _ _
        exact ihA f hf now hl2
    · -- still in cooldown: nothing fires, the map is unchanged
      have heq : triggerAlert m ty now = (false, m) := by
        cases hl : alookup m ty with
        | none =>
          rw [triggerAlert_eq_of_none hl] at hfire
          simp at hfire
        | some tl =>
          by_cases hg : tl ≠ 0 ∧ now - tl < ALERT_COOLDOWN_MS
          · exact triggerAlert_eq_of_guard hl hg
          · rw [triggerAlert_eq_of_expired hl hg] at hfire
            simp at hfire
      have hmpast2 : ∀ ty2 tl, alookup m ty2 = some tl → ∀ q ∈ rest, tl ≤ q.2 :=
        fun ty2 tl hl q hq => hmpast ty2 tl hl q (List.mem_cons_of_mem _ hq)
      obtain ⟨ihA, ihB⟩ := ih m hsorted_rest hpos_rest hmpos hmpast2
      have hout : runAlerts m ((ty, now) :: rest) = runAlerts m rest := by
        simp only [runAlerts]
        rw [heq]
        simp
      rw [hout]
      exact ⟨ihA, ihB⟩

/-- C9. Starting from the initial (empty) cooldown map, for every sequence
of threshold-breach evaluations at positive, nondecreasing wall-clock
times, any two fired alerts of the same type are at least
`ALERT_COOLDOWN_MS` (5 minutes) apart — i.e. a given alert type fires (one
alert log plus one audit `error` record) at most once per cooldown window,
however often its condition is re-evaluated. -/
theorem alert_cooldown_dedup (trace : List (String × ℤ))
    (hsorted : List.Pairwise (· ≤ ·) (trace.map Prod.snd))
    (hpos : ∀ p ∈ trace, 0 < p.2) :
    List.Pairwise (fun a b => a.1 = b.1 → a.2 + ALERT_COOLDOWN_MS ≤ b.2)
      (runAlerts [] trace) :=
  (runAlerts_gap trace [] hsorted hpos
    (by intro ty tl h; simp [alookup] at h)
    (by intro ty tl h; simp [alookup] at h)).2

/-- C9 witness: three breaches of the same alert type at 1 ms, 2 ms and
300001 ms. -/
theorem alert_cooldown_dedup_witness :
    List.Pairwise (fun a b => a.1 = b.1 → a.2 + ALERT_COOLDOWN_MS ≤ b.2)
      (runAlerts [] [("high_error_rate", 1), ("high_error_rate", 2),
        ("high_error_rate", 300001)]) :=
  alert_cooldown_dedup
    [("high_error_rate", 1), ("high_error_rate", 2), ("high_error_rate", 300001)]
    (by decide) (by decide)

/-! ## Input validation (`validation.service`, `validateUserInput`)

The validator tests the input against regex patterns.  The command
injection patterns carry the `g` flag and are module-level regex objects,
so in JS each keeps a mutable `lastIndex` that persists across
`validateUserInput` calls; a `.test()` call starts matching at
`lastIndex`, sets it past the match on success and resets it to 0 on
failure.  We embed the exact patterns with a small backtracking matcher
(classes, literals, greedy `*` and `?` over character classes — all these
patterns need) and thread the `lastIndex` registers explicitly. -/

/-- The regexes needed here: a character class, a literal, a greedy
Kleene star of a class, an optional class. -/
inductive RE where
  | cls (p : Char → Bool)
  | lit (l : List Char)
  | star (p : Char → Bool)
  | opt (p : Char → Bool)

/-- Greedy star with backtracking: consume as many `p`-characters as
possible, retreating until the continuation `k` matches. -/
def matchStar (p : Char → Bool) (k : List Char → Option ℕ) : List Char → Option ℕ
  | [] => k []
  | c :: s =>
    if p c then
      match matchStar p k s with
      | some n => some (n + 1)
      | none => k (c :: s)
    else k (c :: s)

/-- Match a pattern at the head of `s`; `some n` is the matched length. -/
def matchList : List RE → List Char → Option ℕ
  | [], _ => some 0
  | .cls _ :: _, [] => none
  | .cls p :: rs, c :: s => if p c then (matchList rs s).map (· + 1) else none
  | .lit l :: rs, s =>
    if l.isPrefixOf s then (matchList rs (s.drop l.length)).map (· + l.length) else none
  | .opt _ :: rs, [] => matchList rs []
  | .opt p :: rs, c :: s =>
    if p c then
      match matchList rs s with
      | some n => some (n + 1)
      | none => matchList rs (c :: s)
    else matchList rs (c :: s)
  | .star p :: rs, s => matchStar p (matchList rs) s

/-- Leftmost match at or after the current position: `some (start, len)`. -/
def scanFrom (rs : List RE) : List Char → ℕ → Option (ℕ × ℕ)
  | s, i =>
    match matchList rs s with
    | some n => some (i, n)
    | none =>
      match s with
      | [] => none
      | _ :: s2 => scanFrom rs s2 (i + 1)

/-- `regex.test(s)` for a `g`-flagged regex: search from `lastIndex`; on a
match return `true` with `lastIndex` just past it, else `false` with
`lastIndex` reset to 0. -/
def testGlobal (rs : List RE) (s : List Char) (lastIndex : ℕ) : Bool × ℕ :=
  match scanFrom rs (s.drop lastIndex) lastIndex with
  | some (i, n) => (true, i + n)
  | none => (false, 0)

/-- `patterns.some((pattern) => pattern.test(s))` over `g`-flagged module
regexes: short-circuits at the first hit, so later patterns keep their
`lastIndex` untouched. -/
def someTestG : List (List RE × ℕ) → List Char → Bool × List (List RE × ℕ)
  | [], _ => (false, [])
  | (rs, li) :: rest, s =>
    let r := testGlobal rs s li
    if r.1 then (true, (rs, r.2) :: rest)
    else
      let r2 := someTestG rest s
      (r2.1, (rs, r.2) :: r2.2)

/-- `regex.test(s)` for a flag-free (stateless) regex. -/
def testOnce (rs : List RE) (s : List Char) : Bool :=
  (scanFrom rs s 0).isSome

/-- The backtick character (shell command substitution marker). -/
def backtick : Char := Char.ofNat 96

/-- JS `\s` (and the `String.trim` whitespace set). -/
def isJsWhitespace (c : Char) : Bool :=
  c == ' ' || c == Char.ofNat 9 || c == Char.ofNat 10 || c == Char.ofNat 11 ||
  c == Char.ofNat 12 || c == Char.ofNat 13 || c == Char.ofNat 160 ||
  c == Char.ofNat 5760 ||
  (decide (Char.ofNat 8192 ≤ c) && decide (c ≤ Char.ofNat 8202)) ||
  c == Char.ofNat 8232 || c == Char.ofNat 8233 || c == Char.ofNat 8239 ||
  c == Char.ofNat 8287 || c == Char.ofNat 12288 || c == Char.ofNat 65279

/-- `[a-zA-Z]`. -/
def isAsciiLetter (c : Char) : Bool := c.isAlpha

/-- `\s*` as a pattern element. -/
def wsStar : RE := .star isJsWhitespace

/-- `\s+` as pattern elements. -/
def wsPlus : List RE := [.cls isJsWhitespace, wsStar]

/-- A case-insensitive character (the `i` flag); `d` is given lowercase. -/
def ciChar (d : Char) : RE := .cls (fun c => c.toLower == d)

/-- A case-insensitive literal; `w` is given lowercase. -/
def ciLit (w : String) : List RE := w.toList.map ciChar

/-- `COMMAND_INJECTION_PATTERNS`, in source order (all `/g`):
backticks, `$()`, `;` + command, `|` + command, `&&` + command,
`||` + command, `>` + file redirect, `<` + file redirect. -/
def COMMAND_INJECTION_PATTERNS : List (List RE) :=
  [ [.lit [backtick], .star (fun c => !(c == backtick)), .lit [backtick]],
    [.lit ['$', '('], .star (fun c => !(c == ')')), .lit [')']],
    [.lit [';'], wsStar, .cls isAsciiLetter],
    [.lit ['|'], wsStar, .cls isAsciiLetter],
    [.lit ['&', '&'], wsStar, .cls isAsciiLetter],
    [.lit ['|', '|'], wsStar, .cls isAsciiLetter],
    [.lit ['>'], wsStar, .lit ['/'], .cls isAsciiLetter],
    [.lit ['<'], wsStar, .lit ['/'], .cls isAsciiLetter] ]

/-- The module-level `lastIndex` registers, all 0 at load. -/
def initialCommandPatternState : List (List RE × ℕ) :=
  COMMAND_INJECTION_PATTERNS.map (fun rs => (rs, 0))

/-- `PROMPT_INJECTION_PATTERNS` (all `/i`, no `g`), with the
`(previous|all|prior)` and `(role|instructions?|task)` alternations
expanded into one pattern list per alternative — equivalent for the pure
existence test these stateless regexes perform. -/
def PROMPT_INJECTION_PATTERNS : List (List RE) :=
  [ ciLit "ignore" ++ wsPlus ++ ciLit "previous" ++ wsPlus ++ ciLit "instruction"
      ++ [.opt (fun c => c.toLower == 's')],
    ciLit "ignore" ++ wsPlus ++ ciLit "all" ++ wsPlus ++ ciLit "instruction"
      ++ [.opt (fun c => c.toLower == 's')],
    ciLit "ignore" ++ wsPlus ++ ciLit "prior" ++ wsPlus ++ ciLit "instruction"
      ++ [.opt (fun c => c.toLower == 's')],
    ciLit "disregard" ++ wsPlus ++ ciLit "previous" ++ wsPlus ++ ciLit "instruction"
      ++ [.opt (fun c => c.toLower == 's')],
    ciLit "disregard" ++ wsPlus ++ ciLit "all" ++ wsPlus ++ ciLit "instruction"
      ++ [.opt (fun c => c.toLower == 's')],
    ciLit "disregard" ++ wsPlus ++ ciLit "prior" ++ wsPlus ++ ciLit "instruction"
      ++ [.opt (fun c => c.toLower == 's')],
    ciLit "forget" ++ wsPlus ++ ciLit "previous" ++ wsPlus ++ ciLit "instruction"
      ++ [.opt (fun c => c.toLower == 's')],
    ciLit "forget" ++ wsPlus ++ ciLit "all" ++ wsPlus ++ ciLit "instruction"
      ++ [.opt (fun c => c.toLower == 's')],
    ciLit "forget" ++ wsPlus ++ ciLit "prior" ++ wsPlus ++ ciLit "instruction"
      ++ [.opt (fun c => c.toLower == 's')],
    ciLit "new" ++ wsPlus ++ ciLit "instruction"
      ++ [.opt (fun c => c.toLower == 's')] ++ ciLit ":",
    ciLit "system" ++ wsPlus ++ ciLit "prompt",
    ciLit "you" ++ wsPlus ++ ciLit "are" ++ wsPlus ++ ciLit "now",
    ciLit "your" ++ wsPlus ++ ciLit "new" ++ wsPlus ++ ciLit "role",
    ciLit "your" ++ wsPlus ++ ciLit "new" ++ wsPlus ++ ciLit "instruction"
      ++ [.opt (fun c => c.toLower == 's')],
    ciLit "your" ++ wsPlus ++ ciLit "new" ++ wsPlus ++ ciLit "task",
    ciLit "[inst]",
    ciLit "[/inst]",
    ciLit "<|im_start|>",
    ciLit "<|im_end|>" ]

/-- `DANGEROUS_CHARS`: the null byte, listed twice in the source
(`'\0'` and `'\x00'` are the same character). -/
def DANGEROUS_CHARS : List Char := [Char.ofNat 0, Char.ofNat 0]

def MAX_MESSAGE_LENGTH : ℕ := 4000

/-- `String.trim`. -/
def trimList (s : List Char) : List Char :=
  (((s.dropWhile isJsWhitespace).reverse.dropWhile isJsWhitespace)).reverse

/-- The dangerous-character removal loop
(`DANGEROUS_CHARS.forEach(char => sanitized.replace(char-regex, ''))`). -/
def removeNulls (s : List Char) : List Char :=
  DANGEROUS_CHARS.foldl (fun acc ch => acc.filter (fun c => !(c == ch))) s

structure ValidationResult where
  isValid : Bool
  sanitized : List Char
  violations : List String
  deriving DecidableEq, Repr

/-- `validateUserInput(message, maxLength)` with the command-pattern
`lastIndex` registers threaded through: null-byte check and removal,
command injection test (stateful `g` regexes, short-circuiting `some`),
prompt injection test, length check and truncation, trim, emptiness
check. -/
def validateUserInput (message : List Char) (maxLength : ℕ)
    (patternState : List (List RE × ℕ)) : ValidationResult × List (List RE × ℕ) :=
  let hasNulls := DANGEROUS_CHARS.any (fun ch => message.any (fun c => c == ch))
  let violations1 : List String :=
    if hasNulls then ["Contains null bytes or dangerous characters"] else []
  let sanitized1 := if hasNulls then removeNulls message else message
  let cmd := someTestG patternState sanitized1
  let violations2 := violations1 ++
    (if cmd.1 then ["Contains potential command injection patterns"] else [])
  let promptFound := PROMPT_INJECTION_PATTERNS.any (fun rs => testOnce rs sanitized1)
  let violations3 := violations2 ++
    (if promptFound then ["Contains potential prompt injection patterns"] else [])
  let lengthExceeded := decide (sanitized1.length > maxLength)
  let violations4 := violations3 ++
    (if lengthExceeded then
      ["Message exceeds maximum length of " ++ toString maxLength ++ " characters"]
     else [])
  let sanitized2 := if lengthExceeded then sanitized1.take maxLength else sanitized1
  let sanitized3 := trimList sanitized2
  let violations5 := violations4 ++
    (if sanitized3.length = 0 then ["Message is empty after sanitization"] else [])
  ({ isValid := violations5.isEmpty, sanitized := sanitized3,
     violations := violations5 }, cmd.2)

/-! ## C7: the command-injection regex state leaks across calls -/

/-- C7 evaluation at the failing input.  The input `"a;b"` matches the
`;`-command pattern, so the first call is invalid; the `g`-flagged module
regex keeps `lastIndex = 3` past the match, so the *same* input re-tested
immediately afterwards finds no match from there and the second call
returns valid — `validateUserInput` is not independent of prior
invocations.  (The spec requires each decision to be independent and the
result type models a pure check, so this is a bug in the code: `.test()`
on `/g` regexes is stateful.) -/
theorem validateUserInput_regex_state_dependent_cex :
    (validateUserInput (String.toList "a;b") 4000 initialCommandPatternState).1.isValid
      = false ∧
    (validateUserInput (String.toList "a;b") 4000
        (validateUserInput (String.toList "a;b") 4000
          initialCommandPatternState).2).1.isValid
      = true := by
  constructor <;> decide

/-! ## C8: sanitization is a fixed point -/

theorem dropWhile_dropWhile_self {p : Char → Bool} :
    ∀ l : List Char, (l.dropWhile p).dropWhile p = l.dropWhile p := by
  intro l
  induction l with
  | nil => rfl
  | cons c l ih =>
    by_cases h : p c = true
    · simp [List.dropWhile_cons, h, ih]
    · simp [List.dropWhile_cons, h]

theorem dropWhile_suffix_exists {p : Char → Bool} :
    ∀ l : List Char, ∃ w, w ++ l.dropWhile p = l := by
  intro l
  induction l with
  | nil => exact ⟨[], rfl⟩
  | cons c l ih =>
    by_cases h : p c = true
    · obtain ⟨w, hw⟩ := ih
      exact ⟨c :: w, by simp [List.dropWhile_cons, h, hw]⟩
    · exact ⟨[], by simp [List.dropWhile_cons, h]⟩

theorem length_dropWhile_le {p : Char → Bool} :
    ∀ l : List Char, (l.dropWhile p).length ≤ l.length := by
  intro l
  obtain ⟨w, hw⟩ := dropWhile_suffix_exists (p := p) l
  calc (l.dropWhile p).length ≤ w.length + (l.dropWhile p).length := Nat.le_add_left _ _
  _ = l.length := by rw [← List.length_append, hw]

theorem mem_dropWhile_mem {p : Char → Bool} {c : Char} :
    ∀ {l : List Char}, c ∈ l.dropWhile p → c ∈ l := by
  intro l hc
  obtain ⟨w, hw⟩ := dropWhile_suffix_exists (p := p) l
  rw [← hw]
  exact List.mem_append_right w hc

theorem dropWhile_eq_self_of_prefix {p : Char → Bool} :
    ∀ {l t : List Char}, l.dropWhile p = l → t <+: l → t.dropWhile p = t := by
  intro l t hl hp
  cases t with
  | nil => rfl
  | cons c t2 =>
    obtain ⟨w, hw⟩ := hp
    have hpc : p c = false := by
      by_contra hpc'
      have hpc2 : p c = true := by
        cases h : p c
        · exact absurd h hpc'
        · rfl
      rw [← hw] at hl
      rw [List.cons_append, List.dropWhile_cons, if_pos hpc2] at hl
      have hlen := length_dropWhile_le (p := p) (t2 ++ w)
      rw [hl] at hlen
      simp at hlen
    simp [List.dropWhile_cons, hpc]

theorem trimList_mem {c : Char} {s : List Char} (h : c ∈ trimList s) : c ∈ s := by
  simp only [trimList, List.mem_reverse] at h
  have h2 : c ∈ (s.dropWhile isJsWhitespace).reverse := mem_dropWhile_mem h
  rw [List.mem_reverse] at h2
  exact mem_dropWhile_mem h2

theorem trimList_length_le (s : List Char) : (trimList s).length ≤ s.length := by
  simp only [trimList, List.length_reverse]
  calc ((s.dropWhile isJsWhitespace).reverse.dropWhile isJsWhitespace).length
      ≤ (s.dropWhile isJsWhitespace).reverse.length := length_dropWhile_le _
  _ = (s.dropWhile isJsWhitespace).length := List.length_reverse _
  _ ≤ s.length := length_dropWhile_le _

theorem trimList_idem (s : List Char) : trimList (trimList s) = trimList s := by
  have h₁ : (s.dropWhile isJsWhitespace).dropWhile isJsWhitespace
      = s.dropWhile isJsWhitespace := dropWhile_dropWhile_self _
  have hpre : trimList s <+: s.dropWhile isJsWhitespace := by
    obtain ⟨w, hw⟩ :=
      dropWhile_suffix_exists (p := isJsWhitespace) (s.dropWhile isJsWhitespace).reverse
    refine ⟨w.reverse, ?_⟩
    have := congrArg List.reverse hw
    simpa [trimList] using this
  have hleft : (trimList s).dropWhile isJsWhitespace = trimList s :=
    dropWhile_eq_self_of_prefix h₁ hpre
  show (((trimList s).dropWhile isJsWhitespace).reverse.dropWhile
      isJsWhitespace).reverse = trimList s
  rw [hleft]
  have hrev : (trimList s).reverse
      = (s.dropWhile isJsWhitespace).reverse.dropWhile isJsWhitespace := by
    simp [trimList]
  rw [hrev, dropWhile_dropWhile_self]
  simp [trimList]

theorem filter_eq_self_of_no_match {ch : Char} :
    ∀ {s : List Char}, s.any (fun c => c == ch) = false →
      s.filter (fun c => !(c == ch)) = s := by
  intro s
  induction s with
  | nil => intro _; rfl
  | cons c s ih =>
    intro h
    simp only [List.any_cons, Bool.or_eq_false_iff] at h
    simp [List.filter_cons, h.1, ih h.2]

theorem removeNulls_eq_filter (s : List Char) :
    removeNulls s = (s.filter (fun c => !(c == Char.ofNat 0))).filter
      (fun c => !(c == Char.ofNat 0)) := by
  simp [removeNulls, DANGEROUS_CHARS, List.foldl]

theorem removeNulls_eq_self {s : List Char}
    (h : s.any (fun c => c == Char.ofNat 0) = false) : removeNulls s = s := by
  rw [removeNulls_eq_filter, filter_eq_self_of_no_match h, filter_eq_self_of_no_match h]

theorem mem_removeNulls_not_null {c : Char} {s : List Char}
    (h : c ∈ removeNulls s) : (c == Char.ofNat 0) = false := by
  rw [removeNulls_eq_filter] at h
  have := List.of_mem_filter h
  simpa using this

/-- The sanitized text is always
`trim(truncate(maxLength, removeNulls(message)))`: the null-removal is the
identity when no null is present, and the truncation is the identity when
the length check passes, so the conditional branches collapse. -/
theorem validateUserInput_sanitized_eq (message : List Char) (maxLength : ℕ)
    (st : List (List RE × ℕ)) :
    (validateUserInput message maxLength st).1.sanitized
      = trimList ((removeNulls message).take maxLength) := by
  simp only [validateUserInput]
  by_cases hN : DANGEROUS_CHARS.any (fun ch => message.any (fun c => c == ch)) = true
  · simp only [hN, if_true]
    by_cases hLen : decide ((removeNulls message).length > maxLength) = true
    · simp [hLen]
    · have hle : (removeNulls message).length ≤ maxLength := by
        simp at hLen
        omega
      simp [hLen, List.take_of_length_le hle]
  · have hN0 : message.any (fun c => c == Char.ofNat 0) = false := by
      simp only [DANGEROUS_CHARS, List.any_cons, List.any_nil,
        Bool.or_eq_true] at hN
      cases h : message.any (fun c => c == Char.ofNat 0)
      · rfl
      · exact absurd (Or.inl h) hN
    have hid : removeNulls message = message := removeNulls_eq_self hN0
    simp only [Bool.not_eq_true] at hN
    simp only [hN, if_false, hid]
    by_cases hLen : decide (message.length > maxLength) = true
    · simp [hLen]
    · have hle : message.length ≤ maxLength := by
        simp at hLen
        omega
      simp [hLen, List.take_of_length_le hle]

/-- C8. If validating `message` produced `sanitized` with an empty
violations list, then validating that `sanitized` text again (under any
regex-register state) returns the very same `sanitized` unchanged. -/
theorem validateUserInput_sanitized_fixed_point (message : List Char) (maxLength : ℕ)
    (st st2 : List (List RE × ℕ))
    (_hval : (validateUserInput message maxLength st).1.violations = []) :
    (validateUserInput (validateUserInput message maxLength st).1.sanitized
        maxLength st2).1.sanitized
      = (validateUserInput message maxLength st).1.sanitized := by
  have h1 := validateUserInput_sanitized_eq message maxLength st
  have h2 := validateUserInput_sanitized_eq
    ((validateUserInput message maxLength st).1.sanitized) maxLength st2
  rw [h1] at h2 ⊢
  rw [h2]
  have hnonull : (trimList ((removeNulls message).take maxLength)).any
      (fun c => c == Char.ofNat 0) = false := by
    cases h : (trimList ((removeNulls message).take maxLength)).any
        (fun c => c == Char.ofNat 0)
    · rfl
    · rw [List.any_eq_true] at h
      obtain ⟨c, hc, hcnull⟩ := h
      have hc2 : c ∈ removeNulls message :=
        List.take_subset _ _ (trimList_mem hc)
      rw [mem_removeNulls_not_null hc2] at hcnull
      cases hcnull
  rw [removeNulls_eq_self hnonull]
  have hlen : (trimList ((removeNulls message).take maxLength)).length ≤ maxLength := by
    calc (trimList ((removeNulls message).take maxLength)).length
        ≤ ((removeNulls message).take maxLength).length := trimList_length_le _
    _ ≤ maxLength := by
        rw [List.length_take]
        exact Nat.min_le_left _ _
  rw [List.take_of_length_le hlen]
  exact trimList_idem _

/-- C8 witness: `"hello"` validates cleanly and its sanitized text is a
fixed point. -/
theorem validateUserInput_sanitized_fixed_point_witness :
    (validateUserInput
        (validateUserInput (String.toList "hello") 4000
          initialCommandPatternState).1.sanitized
        4000 initialCommandPatternState).1.sanitized
      = (validateUserInput (String.toList "hello") 4000
          initialCommandPatternState).1.sanitized :=
  validateUserInput_sanitized_fixed_point (String.toList "hello") 4000
    initialCommandPatternState initialCommandPatternState (by decide)

end ClaudeBot
